import Mathlib

/-!
# Streaming text-to-speech request wrapper and sample driver

A shallow embedding of `speech/speech_synthesis_request.go` and of the
callbacks and the send loop of `samples/tts-text-stream/main.go`.

The Go code is a thin layer over a C engine reached through cgo.  The engine
is external, so it is a parameter: a record of its header constants and of one
transition function per C entry point, over an engine state `σ` of its own.
Every C call made by the wrapper is also appended to a call trace kept in the
world, so that "which engine calls were made, in which order, with which
arguments" can be stated for an arbitrary engine.

Go pointers are addresses into an explicit heap (one table per struct type);
`none` is the nil pointer, and dereferencing nil is a run-time panic, modelled
by the result `none` of the operation.
-/

namespace Speech

/-! ## Data model -/

/-- One byte of a Go string or byte slice. -/
abbrev Byte := Fin 256

/-- Go strings are immutable byte sequences. -/
abbrev GoString := List Byte

/-- Go pointer: `none` is nil, `some a` is the address `a` in the heap table of
the pointed-to type. -/
abbrev Ref := Option Nat

/-- Dereference a pointer in a heap table; `none` is the nil-pointer panic. -/
def deref {α : Type} (table : List α) : Ref → Option α
  | none => none
  | some a => table[a]?

/-- The Go struct `SpeechSynthesisRequest`: `handle C.SPXHANDLE`. -/
structure SpeechSynthesisRequest where
  handle : Nat
  deriving DecidableEq

/-- The Go struct `SpeechSynthesisInputStream`: `request *SpeechSynthesisRequest`. -/
structure SpeechSynthesisInputStream where
  request : Ref
  deriving DecidableEq

/-- Modelled from the spec: the `common` package (`CarbonError`,
`NewCarbonError`) is not among the sources.  The spec's call-site errors
(`InvalidArgument`, `TransportError`) are the engine's own codes surfaced to the
caller, so the error value is represented by the code it is built from; being a
value built on every call, it is never the nil `error`. -/
structure CarbonError where
  code : Nat
  deriving DecidableEq

/-- The Go call `common.NewCarbonError(ret)`. -/
def NewCarbonError (ret : Nat) : CarbonError := ⟨ret⟩

/-- A C call crossing the cgo boundary, with the arguments the engine receives.
For `send_text_piece` the second argument is the content of the C buffer and
the third the `uint32_t` length. -/
inductive Call where
  | speech_synthesis_request_create (textStream ssml : Bool) (text : Option GoString) (len : Nat)
  | speech_synthesis_request_release (h : Nat)
  | speech_synthesis_request_send_text_piece (h : Nat) (cText : List Byte) (len : Nat)
  | speech_synthesis_request_finish (h : Nat)
  deriving DecidableEq

/-- The engine's C interface (`speechapi_c_synthesis_request.h`, not among the
sources): the header constants the wrapper compares against, and the effect of
each entry point on the engine's own state, together with the `SPXHR` it
returns.  `speech_synthesis_request_create` also yields the value left in the
out-parameter `*hrequest` (the Go variable starts as the zero handle, so an
engine that writes nothing is one that yields `0`). -/
structure Engine (σ : Type) where
  SPX_NOERROR : Nat
  SPXERR_INVALID_ARG : Nat
  SPXHANDLE_INVALID : Nat
  speech_synthesis_request_create : Bool → Bool → Option GoString → Nat → σ → (Nat × Nat) × σ
  speech_synthesis_request_release : Nat → σ → σ
  speech_synthesis_request_send_text_piece : Nat → List Byte → Nat → σ → Nat × σ
  speech_synthesis_request_finish : Nat → σ → Nat × σ

/-- State of the program: the engine's state, the trace of C calls made so far
(oldest first), and the Go heap. -/
structure World (σ : Type) where
  engine : σ
  calls : List Call
  requests : List SpeechSynthesisRequest
  streams : List SpeechSynthesisInputStream

/-! ## `speech/speech_synthesis_request.go` -/

/-- The constant `SpeechSynthesisRequestInputType_TextStream`. -/
def SpeechSynthesisRequestInputType_TextStream : Int := 0

/-- The cgo preamble helper
`create_text_stream_request(hrequest)`, which is
`speech_synthesis_request_create(true, false, NULL, 0, hrequest)`. -/
def create_text_stream_request {σ : Type} (E : Engine σ) (w : World σ) : (Nat × Nat) × World σ :=
  let r := E.speech_synthesis_request_create true false none 0 w.engine
  (r.1, { w with engine := r.2,
                 calls := w.calls ++ [Call.speech_synthesis_request_create true false none 0] })

/-- The Go function `NewSpeechSynthesisRequest(inputType)`: the pair
`(*SpeechSynthesisRequest, error)` and the world after the call. -/
def NewSpeechSynthesisRequest {σ : Type} (E : Engine σ) (inputType : Int) (w : World σ) :
    (Ref × Option CarbonError) × World σ :=
  if inputType = SpeechSynthesisRequestInputType_TextStream then
    let r := create_text_stream_request E w
    let ret := r.1.1
    let handle := r.1.2
    let w1 := r.2
    if ret ≠ E.SPX_NOERROR then
      ((none, some (NewCarbonError ret)), w1)
    else
      ((some w1.requests.length, none), { w1 with requests := w1.requests ++ [⟨handle⟩] })
  else
    ((none, some (NewCarbonError E.SPXERR_INVALID_ARG)), w)

/-- The Go method `(*SpeechSynthesisRequest).Close()`. -/
def SpeechSynthesisRequest.Close {σ : Type} (E : Engine σ) (req : Ref) (w : World σ) :
    Option (World σ) :=
  match req with
  | none => none
  | some a =>
    match w.requests[a]? with
    | none => none
    | some r =>
      if r.handle ≠ E.SPXHANDLE_INVALID then
        some { w with engine := E.speech_synthesis_request_release r.handle w.engine,
                      calls := w.calls ++ [Call.speech_synthesis_request_release r.handle],
                      requests := w.requests.set a ⟨E.SPXHANDLE_INVALID⟩ }
      else
        some w

/-- The Go method `(*SpeechSynthesisRequest).InputStream()`: the composite
literal `&SpeechSynthesisInputStream{request: req}` allocates a new struct at a
fresh address and returns that address.  The receiver is not dereferenced. -/
def SpeechSynthesisRequest.InputStream {σ : Type} (req : Ref) (w : World σ) : Ref × World σ :=
  (some w.streams.length, { w with streams := w.streams ++ [⟨req⟩] })

/-- The Go call `C.CString(text)`: a fresh C buffer holding the bytes of `text`
followed by a terminating NUL. -/
def C_CString (text : GoString) : List Byte := text ++ [0]

/-- The Go conversion `C.uint32_t(len(text))`: the length reduced to 32 bits. -/
def C_uint32_t (n : Nat) : Nat := n % 2 ^ 32

/-- The Go method `(*SpeechSynthesisInputStream).Write(text)`: the returned
`error` (`none` is nil) and the world after the call; the outer `none` is the
nil-pointer panic of `stream.request.handle`.  The deferred `C.free` releases
the buffer and touches neither the engine nor the Go heap. -/
def SpeechSynthesisInputStream.Write {σ : Type} (E : Engine σ) (stream : Ref) (text : GoString)
    (w : World σ) : Option (Option CarbonError × World σ) :=
  let cText := C_CString text
  match deref w.streams stream with
  | none => none
  | some s =>
    match deref w.requests s.request with
    | none => none
    | some r =>
      let len := C_uint32_t text.length
      let res := E.speech_synthesis_request_send_text_piece r.handle cText len w.engine
      let w1 : World σ :=
        { w with engine := res.2,
                 calls := w.calls ++ [Call.speech_synthesis_request_send_text_piece r.handle cText len] }
      if res.1 ≠ E.SPX_NOERROR then some (some (NewCarbonError res.1), w1) else some (none, w1)

/-- The Go method `(*SpeechSynthesisInputStream).Close()`. -/
def SpeechSynthesisInputStream.Close {σ : Type} (E : Engine σ) (stream : Ref) (w : World σ) :
    Option (Option CarbonError × World σ) :=
  match deref w.streams stream with
  | none => none
  | some s =>
    match deref w.requests s.request with
    | none => none
    | some r =>
      let res := E.speech_synthesis_request_finish r.handle w.engine
      let w1 : World σ :=
        { w with engine := res.2,
                 calls := w.calls ++ [Call.speech_synthesis_request_finish r.handle] }
      if res.1 ≠ E.SPX_NOERROR then some (some (NewCarbonError res.1), w1) else some (none, w1)

/-- The Go method `(*SpeechSynthesisRequest).getHandle()`. -/
def SpeechSynthesisRequest.getHandle {σ : Type} (req : Ref) (w : World σ) : Option Nat :=
  (deref w.requests req).map (fun r => r.handle)

/-! ## A mock engine -/

/-- A mock engine that accepts every call and logs what it receives: its state
is its own log, every entry point answers `SPX_NOERROR`, and request creation
hands out the handle `1 +` the number of calls logged so far.  The constants
are those of the Speech SDK headers (`SPX_NOERROR = 0`,
`SPXERR_INVALID_ARG = 0x005`, `SPXHANDLE_INVALID = (SPXHANDLE)-1`). -/
def mockEngine : Engine (List Call) where
  SPX_NOERROR := 0
  SPXERR_INVALID_ARG := 5
  SPXHANDLE_INVALID := 2 ^ 64 - 1
  speech_synthesis_request_create := fun a b t n log =>
    ((0, log.length + 1), log ++ [Call.speech_synthesis_request_create a b t n])
  speech_synthesis_request_release := fun h log =>
    log ++ [Call.speech_synthesis_request_release h]
  speech_synthesis_request_send_text_piece := fun h t n log =>
    (0, log ++ [Call.speech_synthesis_request_send_text_piece h t n])
  speech_synthesis_request_finish := fun h log =>
    (0, log ++ [Call.speech_synthesis_request_finish h])

/-- The world before the program has made any call or allocation. -/
def World.start {σ : Type} (e : σ) : World σ :=
  { engine := e, calls := [], requests := [], streams := [] }

/-! ## `samples/tts-text-stream/main.go`: the callbacks -/

/-- Modelled from the spec: `NewCancellationDetailsFromSpeechSynthesisResult`
and the `CancellationDetails` it returns are not among the sources.  The spec's
cancellation detail has a reason code and a human-readable detail string, the
two fields (`Reason`, `ErrorDetails`) the handler reads; the details are taken
as given with the event, and the error result of the constructor, which the
handler discards (`details, _ :=`), is not represented. -/
structure CancellationDetails where
  Reason : Int
  ErrorDetails : GoString
  deriving DecidableEq

/-- An engine event handed to one of the two registered callbacks:
`synthesizing data` is a `Synthesizing` event whose `event.Result.AudioData` is
`data`; `synthesisCanceled details` is a `SynthesisCanceled` event. -/
inductive Event where
  | synthesizing (audioData : List Byte)
  | synthesisCanceled (details : CancellationDetails)
  deriving DecidableEq

/-- A line printed through `log.Printf` or `log.Println` by the sample. -/
inductive LogLine where
  | firstByteReceived (latency : Int)
  | receivedAudioChunk (n : Nat)
  | failedToWriteAudioData (err : Nat)
  | canceled (reason : Int) (errorDetails : GoString)
  | sending (chunk : GoString)
  | writeFailed (err : CarbonError)
  | closingInputStream
  | closeFailed (err : CarbonError)
  deriving DecidableEq

/-- The output sink `outputFile` (an `*os.File`, external): the effect of
`Write(data)` on the file's state and the error it returns (`none` is nil; the
byte count is discarded by the caller). -/
structure OutputFile (φ : Type) where
  Write : List Byte → φ → Option Nat × φ

/-- What the two closures capture and act on: the variable `firstByteReceived`,
the lines printed, the output file, and the trace of the arguments of the
`outputFile.Write` calls made so far (oldest first). -/
structure Callbacks (φ : Type) where
  firstByteReceived : Bool
  printed : List LogLine
  outputFile : φ
  fileWrites : List (List Byte)

/-- The state when the callbacks are bound: `var firstByteReceived bool` holds
its zero value, nothing is printed or written yet. -/
def Callbacks.init {φ : Type} (file : φ) : Callbacks φ :=
  { firstByteReceived := false, printed := [], outputFile := file, fileWrites := [] }

/-- The closure passed to `synthesizer.Synthesizing`.  The argument `since` is
the value `time.Since(startTime)` has during this invocation.  The deferred
`event.Close()` releases the event's own handle and touches none of the
captured variables. -/
def Synthesizing_handler {φ : Type} (F : OutputFile φ) (since : Int) (data : List Byte)
    (s : Callbacks φ) : Callbacks φ :=
  if data.length > 0 then
    let s1 : Callbacks φ :=
      if !s.firstByteReceived then
        { s with printed := s.printed ++ [LogLine.firstByteReceived since],
                 firstByteReceived := true }
      else s
    let s2 : Callbacks φ :=
      { s1 with printed := s1.printed ++ [LogLine.receivedAudioChunk data.length] }
    let r := F.Write data s2.outputFile
    let s3 : Callbacks φ :=
      { s2 with outputFile := r.2, fileWrites := s2.fileWrites ++ [data] }
    match r.1 with
    | some err => { s3 with printed := s3.printed ++ [LogLine.failedToWriteAudioData err] }
    | none => s3
  else s

/-- The closure passed to `synthesizer.SynthesisCanceled`. -/
def SynthesisCanceled_handler {φ : Type} (details : CancellationDetails) (s : Callbacks φ) :
    Callbacks φ :=
  { s with printed := s.printed ++ [LogLine.canceled details.Reason details.ErrorDetails] }

/-- One delivery by the engine's dispatcher: the event, and the reading
`time.Since(startTime)` would give while its handler runs. -/
structure Delivery where
  since : Int
  event : Event
  deriving DecidableEq

/-- The dispatcher invoking the handler registered for the event. -/
def deliver {φ : Type} (F : OutputFile φ) (d : Delivery) (s : Callbacks φ) : Callbacks φ :=
  match d.event with
  | Event.synthesizing data => Synthesizing_handler F d.since data s
  | Event.synthesisCanceled details => SynthesisCanceled_handler details s

/-- A sequence of deliveries, handled one after the other. -/
def deliverAll {φ : Type} (F : OutputFile φ) (ds : List Delivery) (s : Callbacks φ) :
    Callbacks φ :=
  ds.foldl (fun acc d => deliver F d acc) s

/-- The time-to-first-byte records among the printed lines, oldest first. -/
def ttfbRecords (printed : List LogLine) : List Int :=
  printed.filterMap (fun l => match l with
    | LogLine.firstByteReceived latency => some latency
    | _ => none)

/-- Whether a delivery is an audio chunk with at least one byte. -/
def Delivery.isNonEmptyChunk (d : Delivery) : Bool :=
  match d.event with
  | Event.synthesizing data => decide (data.length > 0)
  | Event.synthesisCanceled _ => false

/-- The payload of an audio-chunk delivery (`none` for a cancellation). -/
def Delivery.chunk (d : Delivery) : Option (List Byte) :=
  match d.event with
  | Event.synthesizing data => some data
  | Event.synthesisCanceled _ => none

/-- The payload of a non-empty audio-chunk delivery. -/
def Delivery.nonEmptyChunk (d : Delivery) : Option (List Byte) :=
  match d.event with
  | Event.synthesizing data => if data.length > 0 then some data else none
  | Event.synthesisCanceled _ => none

/-- A mock output file that accepts every write and appends the bytes. -/
def appendingFile : OutputFile (List Byte) where
  Write := fun data content => (none, content ++ data)

/-! ## `samples/tts-text-stream/main.go`: the send loop -/

/-- The Go standard-library search `strings.Index(s, sep)` for a one-byte
separator (`strings.IndexByte`): the position of the first byte equal to `c`;
`none` stands for the result `-1`. -/
def IndexByte : GoString → Byte → Option Nat
  | [], _ => none
  | b :: bs, c => if b = c then some 0 else (IndexByte bs c).map (fun m => m + 1)

/-- The Go function `strings.Count(s, sep)` for a one-byte separator. -/
def Count (s : GoString) (sep : Byte) : Nat := s.count sep

/-- The loop of `strings.genSplit` for a one-byte separator and `sepSave = 0`,
with `k` the remaining iterations `n - 1 - i`: cut at the first separator,
continue on the rest, and put what remains in the last slot. -/
def genSplitLoop (sep : Byte) : Nat → GoString → List GoString
  | 0, s => [s]
  | k + 1, s =>
    match IndexByte s sep with
    | none => [s]
    | some m => s.take m :: genSplitLoop sep k (s.drop (m + 1))

/-- The Go function `strings.Split(s, sep)` for a one-byte separator, as the
sample calls it with `" "`: `genSplit(s, sep, 0, -1)`, where
`n = Count(s, sep) + 1`, capped at `len(s) + 1`. -/
def Split (s : GoString) (sep : Byte) : List GoString :=
  let n := min (Count s sep + 1) (s.length + 1)
  genSplitLoop sep (n - 1) s

/-- The byte of the string `" "`. -/
def space : Byte := 32

/-- The running sample, as far as the send loop is concerned: the world and the
lines printed. -/
structure Sample (σ : Type) where
  world : World σ
  printed : List LogLine

/-- The `for _, word := range words` loop of `main`.  The Boolean is `true` when
the loop runs to its end and `false` when a failed `Write` makes `main` return;
the outer `none` is a panic.  `time.Sleep` has no effect on the state. -/
def sendLoop {σ : Type} (E : Engine σ) (stream : Ref) :
    List GoString → Sample σ → Option (Bool × Sample σ)
  | [], p => some (true, p)
  | word :: rest, p =>
    let chunk := word ++ [space]
    let p1 : Sample σ := { p with printed := p.printed ++ [LogLine.sending chunk] }
    match SpeechSynthesisInputStream.Write E stream chunk p1.world with
    | none => none
    | some (some err, w1) =>
      some (false, { world := w1, printed := p1.printed ++ [LogLine.writeFailed err] })
    | some (none, w1) => sendLoop E stream rest { p1 with world := w1 }

/-- Steps 6 and 7 of `main`: take the request's input stream, split the text on
single spaces, send each word followed by a space, then close the input stream.
The Boolean is `true` when `main` goes on to wait for the outcome and `false`
when it returns early. -/
def streamText {σ : Type} (E : Engine σ) (req : Ref) (text : GoString) (p : Sample σ) :
    Option (Bool × Sample σ) :=
  let r := SpeechSynthesisRequest.InputStream req p.world
  let stream := r.1
  let words := Split text space
  match sendLoop E stream words { p with world := r.2 } with
  | none => none
  | some (false, p1) => some (false, p1)
  | some (true, p1) =>
    let p2 : Sample σ := { p1 with printed := p1.printed ++ [LogLine.closingInputStream] }
    match SpeechSynthesisInputStream.Close E stream p2.world with
    | none => none
    | some (some err, w3) =>
      some (false, { world := w3, printed := p2.printed ++ [LogLine.closeFailed err] })
    | some (none, w3) => some (true, { p2 with world := w3 })

/-- The pieces the send loop hands to `Write` for a text, in order. -/
def chunksOf (text : GoString) : List GoString :=
  (Split text space).map (fun word => word ++ [space])

/-! ## Call sequences used to state the properties -/

/-- A caller writing the given pieces to the stream in order, stopping at the
first `Write` that returns an error (whose error is then the result). -/
def writeAll {σ : Type} (E : Engine σ) (stream : Ref) :
    List GoString → World σ → Option (Option CarbonError × World σ)
  | [], w => some (none, w)
  | piece :: rest, w =>
    match SpeechSynthesisInputStream.Write E stream piece w with
    | none => none
    | some (some err, w1) => some (some err, w1)
    | some (none, w1) => writeAll E stream rest w1

/-- A caller writing the given pieces in order and then closing the stream
once. -/
def writeAllThenClose {σ : Type} (E : Engine σ) (stream : Ref) (pieces : List GoString)
    (w : World σ) : Option (Option CarbonError × World σ) :=
  match writeAll E stream pieces w with
  | none => none
  | some (some err, w1) => some (some err, w1)
  | some (none, w1) => SpeechSynthesisInputStream.Close E stream w1

/-- A caller invoking `(*SpeechSynthesisRequest).Close()` on the same request
`n` times in a row. -/
def closeTimes {σ : Type} (E : Engine σ) (req : Ref) : Nat → World σ → Option (World σ)
  | 0, w => some w
  | n + 1, w => (SpeechSynthesisRequest.Close E req w).bind (closeTimes E req n)

/-- The number of `speech_synthesis_request_release` calls in a trace. -/
def releaseCount (calls : List Call) : Nat :=
  calls.countP (fun c => match c with
    | Call.speech_synthesis_request_release _ => true
    | _ => false)

/-- The number of `speech_synthesis_request_finish` calls in a trace. -/
def finishCount (calls : List Call) : Nat :=
  calls.countP (fun c => match c with
    | Call.speech_synthesis_request_finish _ => true
    | _ => false)

/-- A world holding one request with the given engine handle and one input
stream of that request. -/
def World.withStream {σ : Type} (e : σ) (handle : Nat) : World σ :=
  { engine := e, calls := [], requests := [⟨handle⟩], streams := [⟨some 0⟩] }

/-- The text of a `send_text_piece` call: the content of the C buffer before the
terminating NUL that `C.CString` appended (`none` for the other calls). -/
def Call.sentText : Call → Option GoString
  | Call.speech_synthesis_request_send_text_piece _ cText _ => some cText.dropLast
  | _ => none

/-- The texts of the `send_text_piece` calls of a trace, oldest first. -/
def sentPieces (calls : List Call) : List GoString :=
  calls.filterMap Call.sentText

/-- The text a `send_text_piece` call hands to the engine: the first `len`
bytes of the C buffer, `len` being the length argument of the call (`none` for
the other calls). -/
def Call.receivedText : Call → Option GoString
  | Call.speech_synthesis_request_send_text_piece _ cText len => some (cText.take len)
  | _ => none

/-- The texts handed to the engine by the `send_text_piece` calls of a trace,
oldest first. -/
def receivedPieces (calls : List Call) : List GoString :=
  calls.filterMap Call.receivedText

/-- The `send_text_piece` call that `Write(text)` makes on a request with
handle `h`. -/
def sendCall (h : Nat) (text : GoString) : Call :=
  Call.speech_synthesis_request_send_text_piece h (C_CString text) (C_uint32_t text.length)

/-! ## Shape of one `Write` and one stream `Close` -/

/-- The world after a `Write` of `text` on a stream whose request has handle
`h`. -/
def afterWrite {σ : Type} (E : Engine σ) (h : Nat) (text : GoString) (w : World σ) : World σ :=
  { w with
    engine := (E.speech_synthesis_request_send_text_piece h (C_CString text)
                (C_uint32_t text.length) w.engine).2,
    calls := w.calls ++ [Call.speech_synthesis_request_send_text_piece h (C_CString text)
                (C_uint32_t text.length)] }

/-- The world after a stream `Close` on a stream whose request has handle
`h`. -/
def afterFinish {σ : Type} (E : Engine σ) (h : Nat) (w : World σ) : World σ :=
  { w with
    engine := (E.speech_synthesis_request_finish h w.engine).2,
    calls := w.calls ++ [Call.speech_synthesis_request_finish h] }

/-- The Go `error` a wrapper method returns for the engine answer `ret`. -/
def errorOf {σ : Type} (E : Engine σ) (ret : Nat) : Option CarbonError :=
  if ret ≠ E.SPX_NOERROR then some (NewCarbonError ret) else none

/-! ## Theorems -/

theorem errorOf_eq_none_iff {σ : Type} (E : Engine σ) (ret : Nat) :
    errorOf E ret = none ↔ ret = E.SPX_NOERROR := by
  unfold errorOf
  by_cases h : ret = E.SPX_NOERROR <;> simp [h]

theorem Write_eq {σ : Type} (E : Engine σ) (w : World σ) (stream : Ref) (text : GoString)
    (s : SpeechSynthesisInputStream) (r : SpeechSynthesisRequest)
    (hs : deref w.streams stream = some s) (hr : deref w.requests s.request = some r) :
    SpeechSynthesisInputStream.Write E stream text w
      = some (errorOf E (E.speech_synthesis_request_send_text_piece r.handle (C_CString text)
                (C_uint32_t text.length) w.engine).1, afterWrite E r.handle text w) := by
  unfold SpeechSynthesisInputStream.Write errorOf afterWrite
  simp only [hs, hr]
  split_ifs <;> rfl

theorem Close_eq {σ : Type} (E : Engine σ) (w : World σ) (stream : Ref)
    (s : SpeechSynthesisInputStream) (r : SpeechSynthesisRequest)
    (hs : deref w.streams stream = some s) (hr : deref w.requests s.request = some r) :
    SpeechSynthesisInputStream.Close E stream w
      = some (errorOf E (E.speech_synthesis_request_finish r.handle w.engine).1,
              afterFinish E r.handle w) := by
  unfold SpeechSynthesisInputStream.Close errorOf afterFinish
  simp only [hs, hr]
  split_ifs <;> rfl

/-! ### Request construction -/

/-- C1: for every input type other than
`SpeechSynthesisRequestInputType_TextStream`, `NewSpeechSynthesisRequest`
returns a nil request with the error built from `SPXERR_INVALID_ARG`, and
leaves the world as it was: no engine call is traced, the engine state is
untouched and nothing is allocated. -/
theorem NewSpeechSynthesisRequest_invalid_arg {σ : Type} (E : Engine σ) (inputType : Int)
    (w : World σ) (hne : inputType ≠ SpeechSynthesisRequestInputType_TextStream) :
    NewSpeechSynthesisRequest E inputType w
      = ((none, some (NewCarbonError E.SPXERR_INVALID_ARG)), w) := by
  unfold NewSpeechSynthesisRequest
  rw [if_neg hne]

theorem NewSpeechSynthesisRequest_invalid_arg_witness :
    (1 : Int) ≠ SpeechSynthesisRequestInputType_TextStream ∧
    NewSpeechSynthesisRequest mockEngine 1 (World.start [])
      = ((none, some (NewCarbonError mockEngine.SPXERR_INVALID_ARG)), World.start []) :=
  ⟨by decide, NewSpeechSynthesisRequest_invalid_arg mockEngine 1 (World.start []) (by decide)⟩

/-! ### `Write` -/

/-- C9: on a stream whose request is allocated, `Write` returns (it does not
panic), appends exactly one `send_text_piece` call carrying the request's
handle to the trace, leaves the Go heap as it was, returns nil exactly when the
engine answers `SPX_NOERROR`, and otherwise returns the error built from the
engine's own answer. -/
theorem Write_sends_once_and_reports {σ : Type} (E : Engine σ) (w : World σ) (stream : Ref)
    (text : GoString) (s : SpeechSynthesisInputStream) (r : SpeechSynthesisRequest)
    (hs : deref w.streams stream = some s) (hr : deref w.requests s.request = some r) :
    ∃ err w1, SpeechSynthesisInputStream.Write E stream text w = some (err, w1)
      ∧ w1.calls = w.calls ++ [Call.speech_synthesis_request_send_text_piece r.handle
                                (C_CString text) (C_uint32_t text.length)]
      ∧ w1.engine = (E.speech_synthesis_request_send_text_piece r.handle (C_CString text)
                      (C_uint32_t text.length) w.engine).2
      ∧ w1.requests = w.requests ∧ w1.streams = w.streams
      ∧ (err = none ↔ (E.speech_synthesis_request_send_text_piece r.handle (C_CString text)
                        (C_uint32_t text.length) w.engine).1 = E.SPX_NOERROR)
      ∧ ((E.speech_synthesis_request_send_text_piece r.handle (C_CString text)
            (C_uint32_t text.length) w.engine).1 ≠ E.SPX_NOERROR →
          err = some (NewCarbonError (E.speech_synthesis_request_send_text_piece r.handle
                  (C_CString text) (C_uint32_t text.length) w.engine).1)) := by
  refine ⟨_, _, Write_eq E w stream text s r hs hr, rfl, rfl, rfl, rfl,
    errorOf_eq_none_iff E _, ?_⟩
  intro hne
  unfold errorOf
  rw [if_pos hne]

theorem Write_sends_once_and_reports_witness :
    ∃ err w1, SpeechSynthesisInputStream.Write mockEngine (some 0) [104, 105]
        (World.withStream [] 7) = some (err, w1)
      ∧ w1.calls = [Call.speech_synthesis_request_send_text_piece 7 [104, 105, 0] 2]
      ∧ err = none := by
  obtain ⟨err, w1, h1, h2, _, _, _, h6, _⟩ :=
    Write_sends_once_and_reports mockEngine (World.withStream [] 7) (some 0) [104, 105]
      ⟨some 0⟩ ⟨7⟩ rfl rfl
  exact ⟨err, w1, h1, h2, h6.mpr rfl⟩

/-- C3, as the code has it: a `Write` issued after a stream `Close` that
returned nil is forwarded to the engine like any other `Write`.  It returns, it
adds one `send_text_piece` call after the `finish` call in the trace, and it
returns nil exactly when the engine answers `SPX_NOERROR` to that send;
otherwise the error is built from the engine's answer.  The wrapper itself
never rejects it. -/
theorem Write_after_Close_forwards_to_engine {σ : Type} (E : Engine σ) (w w1 : World σ)
    (stream : Ref) (text : GoString) (s : SpeechSynthesisInputStream)
    (r : SpeechSynthesisRequest)
    (hs : deref w.streams stream = some s) (hr : deref w.requests s.request = some r)
    (hclose : SpeechSynthesisInputStream.Close E stream w = some (none, w1)) :
    ∃ err w2, SpeechSynthesisInputStream.Write E stream text w1 = some (err, w2)
      ∧ w2.calls = w.calls ++ [Call.speech_synthesis_request_finish r.handle,
                               Call.speech_synthesis_request_send_text_piece r.handle
                                 (C_CString text) (C_uint32_t text.length)]
      ∧ err = errorOf E (E.speech_synthesis_request_send_text_piece r.handle (C_CString text)
                          (C_uint32_t text.length) w1.engine).1
      ∧ (err = none ↔ (E.speech_synthesis_request_send_text_piece r.handle (C_CString text)
                        (C_uint32_t text.length) w1.engine).1 = E.SPX_NOERROR) := by
  rw [Close_eq E w stream s r hs hr] at hclose
  have hw1 : w1 = afterFinish E r.handle w := by
    have := Option.some.inj hclose
    exact (congrArg Prod.snd this).symm
  subst hw1
  have hs1 : deref (afterFinish E r.handle w).streams stream = some s := hs
  have hr1 : deref (afterFinish E r.handle w).requests s.request = some r := hr
  refine ⟨_, _, Write_eq E _ stream text s r hs1 hr1, ?_, rfl, errorOf_eq_none_iff E _⟩
  simp [afterWrite, afterFinish]

theorem Write_after_Close_forwards_to_engine_witness :
    ∃ err w2, SpeechSynthesisInputStream.Write mockEngine (some 0) [104, 105]
        (afterFinish mockEngine 7 (World.withStream [] 7)) = some (err, w2)
      ∧ w2.calls = [Call.speech_synthesis_request_finish 7,
                    Call.speech_synthesis_request_send_text_piece 7 [104, 105, 0] 2]
      ∧ err = none := by
  obtain ⟨err, w2, h1, h2, _, h4⟩ :=
    Write_after_Close_forwards_to_engine mockEngine (World.withStream [] 7)
      (afterFinish mockEngine 7 (World.withStream [] 7)) (some 0) [104, 105]
      ⟨some 0⟩ ⟨7⟩ rfl rfl rfl
  exact ⟨err, w2, h1, h2, h4.mpr rfl⟩

/-- C3 fails as stated: against the accepting mock engine, the stream `Close`
returns nil and the `Write` of `"hi"` issued after it returns nil as well,
not a channel-closed error. -/
theorem Write_after_Close_accepted_by_mock :
    (SpeechSynthesisInputStream.Close mockEngine (some 0) (World.withStream [] 7)).map Prod.fst
        = some none
    ∧ ((SpeechSynthesisInputStream.Close mockEngine (some 0) (World.withStream [] 7)).bind
        (fun r => SpeechSynthesisInputStream.Write mockEngine (some 0) [104, 105] r.2)).map Prod.fst
        = some none := by
  constructor <;> rfl

/-! ### Stream `Close` -/

/-- C4, as the code has it: a second stream `Close` after a first one that
returned nil calls the engine's `finish` again with the same handle, so the
trace then holds two `finish` calls, and it returns nil exactly when the engine
answers `SPX_NOERROR` to that second call. -/
theorem second_Close_signals_again {σ : Type} (E : Engine σ) (w w1 : World σ)
    (stream : Ref) (s : SpeechSynthesisInputStream) (r : SpeechSynthesisRequest)
    (hs : deref w.streams stream = some s) (hr : deref w.requests s.request = some r)
    (hclose : SpeechSynthesisInputStream.Close E stream w = some (none, w1)) :
    ∃ err w2, SpeechSynthesisInputStream.Close E stream w1 = some (err, w2)
      ∧ w2.calls = w.calls ++ [Call.speech_synthesis_request_finish r.handle,
                               Call.speech_synthesis_request_finish r.handle]
      ∧ finishCount w2.calls = finishCount w.calls + 2
      ∧ w2.engine = (E.speech_synthesis_request_finish r.handle w1.engine).2
      ∧ (err = none ↔ (E.speech_synthesis_request_finish r.handle w1.engine).1
                        = E.SPX_NOERROR) := by
  rw [Close_eq E w stream s r hs hr] at hclose
  have hw1 : w1 = afterFinish E r.handle w := by
    have := Option.some.inj hclose
    exact (congrArg Prod.snd this).symm
  subst hw1
  have hs1 : deref (afterFinish E r.handle w).streams stream = some s := hs
  have hr1 : deref (afterFinish E r.handle w).requests s.request = some r := hr
  refine ⟨_, _, Close_eq E _ stream s r hs1 hr1, ?_, ?_, rfl, errorOf_eq_none_iff E _⟩
  · simp [afterFinish]
  · simp [afterFinish, finishCount, List.countP_append]

theorem second_Close_signals_again_witness :
    ∃ err w2, SpeechSynthesisInputStream.Close mockEngine (some 0)
        (afterFinish mockEngine 7 (World.withStream [] 7)) = some (err, w2)
      ∧ w2.calls = [Call.speech_synthesis_request_finish 7,
                    Call.speech_synthesis_request_finish 7]
      ∧ err = none := by
  obtain ⟨err, w2, h1, h2, _, _, h5⟩ :=
    second_Close_signals_again mockEngine (World.withStream [] 7)
      (afterFinish mockEngine 7 (World.withStream [] 7)) (some 0) ⟨some 0⟩ ⟨7⟩ rfl rfl rfl
  exact ⟨err, w2, h1, h2, h5.mpr rfl⟩

/-- C4 fails as stated: against the accepting mock engine, two stream `Close`
calls in a row both return nil, and the engine's log then holds the finish
signal twice. -/
theorem second_Close_reaches_mock :
    ((SpeechSynthesisInputStream.Close mockEngine (some 0) (World.withStream [] 7)).bind
        (fun r => SpeechSynthesisInputStream.Close mockEngine (some 0) r.2)).map
        (fun r => (r.1, r.2.engine))
      = some (none, [Call.speech_synthesis_request_finish 7,
                     Call.speech_synthesis_request_finish 7]) := by
  rfl

/-! ### Request `Close` -/

theorem Request_Close_of_valid {σ : Type} (E : Engine σ) (w : World σ) (a : Nat)
    (r : SpeechSynthesisRequest) (hr : w.requests[a]? = some r)
    (hv : r.handle ≠ E.SPXHANDLE_INVALID) :
    SpeechSynthesisRequest.Close E (some a) w
      = some { w with engine := E.speech_synthesis_request_release r.handle w.engine,
                      calls := w.calls ++ [Call.speech_synthesis_request_release r.handle],
                      requests := w.requests.set a ⟨E.SPXHANDLE_INVALID⟩ } := by
  unfold SpeechSynthesisRequest.Close
  simp only [hr]
  rw [if_pos hv]

theorem Request_Close_of_invalid {σ : Type} (E : Engine σ) (w : World σ) (a : Nat)
    (r : SpeechSynthesisRequest) (hr : w.requests[a]? = some r)
    (hv : r.handle = E.SPXHANDLE_INVALID) :
    SpeechSynthesisRequest.Close E (some a) w = some w := by
  unfold SpeechSynthesisRequest.Close
  simp only [hr]
  rw [if_neg (not_not.mpr hv)]

theorem Request_Close_twice {σ : Type} (E : Engine σ) (w w1 : World σ) (a : Nat)
    (r : SpeechSynthesisRequest) (hr : w.requests[a]? = some r)
    (h1 : SpeechSynthesisRequest.Close E (some a) w = some w1) :
    SpeechSynthesisRequest.Close E (some a) w1 = some w1 := by
  by_cases hv : r.handle = E.SPXHANDLE_INVALID
  · rw [Request_Close_of_invalid E w a r hr hv] at h1
    cases h1
    exact Request_Close_of_invalid E w a r hr hv
  · rw [Request_Close_of_valid E w a r hr hv] at h1
    cases h1
    have hlt : a < w.requests.length := by
      rcases Nat.lt_or_ge a w.requests.length with h | h
      · exact h
      · rw [List.getElem?_eq_none h] at hr
        cases hr
    exact Request_Close_of_invalid E _ a ⟨E.SPXHANDLE_INVALID⟩
      (List.getElem?_set_self hlt) rfl

theorem closeTimes_succ_of_fixed {σ : Type} (E : Engine σ) (w1 : World σ) (req : Ref)
    (hfix : SpeechSynthesisRequest.Close E req w1 = some w1) (n : Nat) :
    closeTimes E req n w1 = some w1 := by
  induction n with
  | zero => rfl
  | succ n ih =>
    unfold closeTimes
    rw [hfix]
    exact ih

/-- C5: on an allocated request, `(*SpeechSynthesisRequest).Close()` returns.
When the handle is valid, it calls the engine's release once with that handle
and stores the invalid sentinel in the request; when the handle is already the
sentinel, it changes nothing.  A further `Close` on the result changes nothing
and makes no call, so any positive number of `Close` calls in a row ends in the
state the first one left, and over any number of calls at most one release
call is added to the trace. -/
theorem Request_Close_idempotent {σ : Type} (E : Engine σ) (w : World σ) (a : Nat)
    (r : SpeechSynthesisRequest) (hr : w.requests[a]? = some r) :
    ∃ w1, SpeechSynthesisRequest.Close E (some a) w = some w1
      ∧ (r.handle ≠ E.SPXHANDLE_INVALID →
          w1.calls = w.calls ++ [Call.speech_synthesis_request_release r.handle]
          ∧ w1.engine = E.speech_synthesis_request_release r.handle w.engine
          ∧ w1.requests = w.requests.set a ⟨E.SPXHANDLE_INVALID⟩
          ∧ SpeechSynthesisRequest.getHandle (some a) w1 = some E.SPXHANDLE_INVALID
          ∧ w1.streams = w.streams)
      ∧ (r.handle = E.SPXHANDLE_INVALID → w1 = w)
      ∧ SpeechSynthesisRequest.Close E (some a) w1 = some w1
      ∧ (∀ n, closeTimes E (some a) (n + 1) w = some w1)
      ∧ (∀ n, ∃ wn, closeTimes E (some a) n w = some wn
            ∧ releaseCount wn.calls ≤ releaseCount w.calls + 1) := by
  have hlt : a < w.requests.length := by
    rcases Nat.lt_or_ge a w.requests.length with h | h
    · exact h
    · rw [List.getElem?_eq_none h] at hr
      cases hr
  obtain ⟨w1, h1, hvalid, hinvalid⟩ :
      ∃ w1, SpeechSynthesisRequest.Close E (some a) w = some w1
        ∧ (r.handle ≠ E.SPXHANDLE_INVALID →
            w1.calls = w.calls ++ [Call.speech_synthesis_request_release r.handle]
            ∧ w1.engine = E.speech_synthesis_request_release r.handle w.engine
            ∧ w1.requests = w.requests.set a ⟨E.SPXHANDLE_INVALID⟩
            ∧ SpeechSynthesisRequest.getHandle (some a) w1 = some E.SPXHANDLE_INVALID
            ∧ w1.streams = w.streams)
        ∧ (r.handle = E.SPXHANDLE_INVALID → w1 = w) := by
    by_cases hv : r.handle = E.SPXHANDLE_INVALID
    · exact ⟨w, Request_Close_of_invalid E w a r hr hv, fun h => absurd hv h, fun _ => rfl⟩
    · refine ⟨_, Request_Close_of_valid E w a r hr hv, fun _ => ⟨rfl, rfl, rfl, ?_, rfl⟩,
        fun h => absurd h hv⟩
      simp [SpeechSynthesisRequest.getHandle, deref, List.getElem?_set_self hlt]
  have h2 := Request_Close_twice E w w1 a r hr h1
  have hstep : ∀ n, closeTimes E (some a) (n + 1) w = some w1 := by
    intro n
    unfold closeTimes
    rw [h1]
    exact closeTimes_succ_of_fixed E w1 (some a) h2 n
  have hcount : releaseCount w1.calls ≤ releaseCount w.calls + 1 := by
    by_cases hv : r.handle = E.SPXHANDLE_INVALID
    · rw [hinvalid hv]
      exact Nat.le_succ _
    · rw [(hvalid hv).1]
      simp [releaseCount, List.countP_append]
  refine ⟨w1, h1, hvalid, hinvalid, h2, hstep, ?_⟩
  intro n
  cases n with
  | zero => exact ⟨w, rfl, Nat.le_succ _⟩
  | succ n => exact ⟨w1, hstep n, hcount⟩

theorem Request_Close_idempotent_witness :
    (World.withStream ([] : List Call) 7).requests[0]? = some ⟨7⟩ ∧
    ∃ w1, SpeechSynthesisRequest.Close mockEngine (some 0) (World.withStream [] 7) = some w1
      ∧ w1.calls = [Call.speech_synthesis_request_release 7]
      ∧ SpeechSynthesisRequest.getHandle (some 0) w1 = some (2 ^ 64 - 1)
      ∧ SpeechSynthesisRequest.Close mockEngine (some 0) w1 = some w1
      ∧ closeTimes mockEngine (some 0) 3 (World.withStream [] 7) = some w1 := by
  refine ⟨rfl, ?_⟩
  obtain ⟨w1, h1, hv, _, h2, h3, _⟩ :=
    Request_Close_idempotent mockEngine (World.withStream [] 7) 0 ⟨7⟩ rfl
  have hv7 := hv (by decide)
  exact ⟨w1, h1, hv7.1, hv7.2.2.2.1, h2, h3 2⟩

/-! ### `InputStream` -/

/-- C6, as the code has it: every call to `InputStream` constructs a new
stream object at an address not in use before; two calls on one request return
two different objects, each holding the same request pointer, and neither call
touches the engine, the trace or the requests. -/
theorem InputStream_allocates_fresh {σ : Type} (req : Ref) (w : World σ) :
    deref w.streams (SpeechSynthesisRequest.InputStream req w).1 = none
    ∧ (SpeechSynthesisRequest.InputStream req w).1
        ≠ (SpeechSynthesisRequest.InputStream req (SpeechSynthesisRequest.InputStream req w).2).1
    ∧ deref (SpeechSynthesisRequest.InputStream req
              (SpeechSynthesisRequest.InputStream req w).2).2.streams
            (SpeechSynthesisRequest.InputStream req w).1 = some ⟨req⟩
    ∧ deref (SpeechSynthesisRequest.InputStream req
              (SpeechSynthesisRequest.InputStream req w).2).2.streams
            (SpeechSynthesisRequest.InputStream req
              (SpeechSynthesisRequest.InputStream req w).2).1 = some ⟨req⟩
    ∧ (SpeechSynthesisRequest.InputStream req
        (SpeechSynthesisRequest.InputStream req w).2).2.calls = w.calls
    ∧ (SpeechSynthesisRequest.InputStream req
        (SpeechSynthesisRequest.InputStream req w).2).2.engine = w.engine
    ∧ (SpeechSynthesisRequest.InputStream req
        (SpeechSynthesisRequest.InputStream req w).2).2.requests = w.requests := by
  refine ⟨?_, ?_, ?_, ?_, rfl, rfl, rfl⟩
  · simp [SpeechSynthesisRequest.InputStream, deref]
  · simp [SpeechSynthesisRequest.InputStream]
  · show ((w.streams ++ [⟨req⟩]) ++ [⟨req⟩])[w.streams.length]? = some ⟨req⟩
    rw [List.getElem?_append_left (by simp)]
    exact List.getElem?_concat_length _ _
  · show ((w.streams ++ [⟨req⟩]) ++ [⟨req⟩])[(w.streams ++
      [(⟨req⟩ : SpeechSynthesisInputStream)]).length]? = some ⟨req⟩
    exact List.getElem?_concat_length _ _

/-- C6 fails as stated: on a request of the mock engine, two calls to
`InputStream` return two different stream objects. -/
theorem InputStream_twice_differs :
    (SpeechSynthesisRequest.InputStream (some 0) (World.withStream ([] : List Call) 7)).1
      ≠ (SpeechSynthesisRequest.InputStream (some 0)
          (SpeechSynthesisRequest.InputStream (some 0)
            (World.withStream ([] : List Call) 7)).2).1 := by
  decide

/-! ### The callbacks -/

theorem deliver_firstByteReceived {φ : Type} (F : OutputFile φ) (d : Delivery)
    (s : Callbacks φ) :
    (deliver F d s).firstByteReceived = (s.firstByteReceived || d.isNonEmptyChunk) := by
  obtain ⟨since, ev⟩ := d
  cases ev with
  | synthesizing data =>
    simp only [deliver, Synthesizing_handler, Delivery.isNonEmptyChunk]
    by_cases hd : data.length > 0
    · cases hf : s.firstByteReceived <;> cases hw : (F.Write data s.outputFile).1 <;>
        simp [hd, hf, hw]
    · simp [hd]
  | synthesisCanceled details =>
    simp [deliver, SynthesisCanceled_handler, Delivery.isNonEmptyChunk]

theorem deliver_ttfbRecords {φ : Type} (F : OutputFile φ) (d : Delivery) (s : Callbacks φ) :
    ttfbRecords (deliver F d s).printed
      = ttfbRecords s.printed
          ++ (if d.isNonEmptyChunk && !s.firstByteReceived then [d.since] else []) := by
  obtain ⟨since, ev⟩ := d
  cases ev with
  | synthesizing data =>
    simp only [deliver, Synthesizing_handler, Delivery.isNonEmptyChunk]
    by_cases hd : data.length > 0
    · cases hf : s.firstByteReceived <;> cases hw : (F.Write data s.outputFile).1 <;>
        simp [hd, hf, hw, ttfbRecords, List.filterMap_append]
    · simp [hd]
  | synthesisCanceled details =>
    simp [deliver, SynthesisCanceled_handler, Delivery.isNonEmptyChunk, ttfbRecords,
      List.filterMap_append]

theorem deliver_fileWrites {φ : Type} (F : OutputFile φ) (d : Delivery) (s : Callbacks φ) :
    (deliver F d s).fileWrites = s.fileWrites ++ d.nonEmptyChunk.toList := by
  obtain ⟨since, ev⟩ := d
  cases ev with
  | synthesizing data =>
    simp only [deliver, Synthesizing_handler, Delivery.nonEmptyChunk]
    by_cases hd : data.length > 0
    · cases hf : s.firstByteReceived <;> cases hw : (F.Write data s.outputFile).1 <;>
        simp [hd, hf, hw]
    · simp [hd]
  | synthesisCanceled details =>
    simp [deliver, SynthesisCanceled_handler, Delivery.nonEmptyChunk]

theorem deliverAll_cons {φ : Type} (F : OutputFile φ) (d : Delivery) (ds : List Delivery)
    (s : Callbacks φ) : deliverAll F (d :: ds) s = deliverAll F ds (deliver F d s) := rfl

theorem deliverAll_firstByteReceived {φ : Type} (F : OutputFile φ) (ds : List Delivery)
    (s : Callbacks φ) :
    (deliverAll F ds s).firstByteReceived
      = (s.firstByteReceived || ds.any Delivery.isNonEmptyChunk) := by
  induction ds generalizing s with
  | nil => simp [deliverAll]
  | cons d ds ih =>
    rw [deliverAll_cons, ih, deliver_firstByteReceived, List.any_cons, Bool.or_assoc]

theorem deliverAll_ttfbRecords {φ : Type} (F : OutputFile φ) (ds : List Delivery)
    (s : Callbacks φ) :
    ttfbRecords (deliverAll F ds s).printed
      = ttfbRecords s.printed
          ++ (if s.firstByteReceived then []
              else ((ds.find? Delivery.isNonEmptyChunk).map Delivery.since).toList) := by
  induction ds generalizing s with
  | nil => cases s.firstByteReceived <;> simp [deliverAll]
  | cons d ds ih =>
    rw [deliverAll_cons, ih, deliver_ttfbRecords, deliver_firstByteReceived, List.find?_cons]
    cases hf : s.firstByteReceived <;> cases hd : d.isNonEmptyChunk <;> simp

theorem deliverAll_fileWrites {φ : Type} (F : OutputFile φ) (ds : List Delivery)
    (s : Callbacks φ) :
    (deliverAll F ds s).fileWrites = s.fileWrites ++ ds.filterMap Delivery.nonEmptyChunk := by
  induction ds generalizing s with
  | nil => simp [deliverAll]
  | cons d ds ih =>
    rw [deliverAll_cons, ih, deliver_fileWrites, List.filterMap_cons]
    cases d.nonEmptyChunk <;> simp

theorem nonEmptyChunk_flatten (ds : List Delivery) :
    (ds.filterMap Delivery.nonEmptyChunk).flatten = (ds.filterMap Delivery.chunk).flatten := by
  induction ds with
  | nil => rfl
  | cons d ds ih =>
    obtain ⟨since, ev⟩ := d
    cases ev with
    | synthesizing data =>
      cases data with
      | nil => simpa [Delivery.nonEmptyChunk, Delivery.chunk] using ih
      | cons b bs => simp [Delivery.nonEmptyChunk, Delivery.chunk, ih]
    | synthesisCanceled details => simpa [Delivery.nonEmptyChunk, Delivery.chunk] using ih

theorem deliverAll_appendingFile (ds : List Delivery) (s : Callbacks (List Byte)) :
    (deliverAll appendingFile ds s).outputFile
      = s.outputFile ++ (ds.filterMap Delivery.chunk).flatten := by
  induction ds generalizing s with
  | nil => simp [deliverAll]
  | cons d ds ih =>
    rw [deliverAll_cons, ih]
    obtain ⟨since, ev⟩ := d
    cases ev with
    | synthesizing data =>
      cases data with
      | nil => simp [deliver, Synthesizing_handler, Delivery.chunk]
      | cons b bs =>
        cases hf : s.firstByteReceived <;>
          simp [deliver, Synthesizing_handler, Delivery.chunk, appendingFile, hf]
    | synthesisCanceled details => simp [deliver, SynthesisCanceled_handler, Delivery.chunk]

/-- C7: for every sequence of deliveries handled from the state in which the
callbacks are bound, the time-to-first-byte lines printed are exactly one line
carrying the reading of the first non-empty chunk when the sequence holds a
non-empty chunk, and none otherwise (cancellations and empty chunks record
nothing); the flag ends `true` exactly when a non-empty chunk was delivered;
and from any state, a flag that is `true` stays `true` and no further
time-to-first-byte line is printed. -/
theorem ttfb_recorded_once_at_first_chunk {φ : Type} (F : OutputFile φ) (file : φ)
    (ds : List Delivery) :
    ttfbRecords (deliverAll F ds (Callbacks.init file)).printed
        = ((ds.find? Delivery.isNonEmptyChunk).map Delivery.since).toList
    ∧ (ttfbRecords (deliverAll F ds (Callbacks.init file)).printed).length
        = (if ds.any Delivery.isNonEmptyChunk then 1 else 0)
    ∧ (deliverAll F ds (Callbacks.init file)).firstByteReceived
        = ds.any Delivery.isNonEmptyChunk
    ∧ (∀ (s : Callbacks φ) (d : Delivery), s.firstByteReceived = true →
        (deliver F d s).firstByteReceived = true
        ∧ ttfbRecords (deliver F d s).printed = ttfbRecords s.printed)
    ∧ (∀ (s : Callbacks φ) (ds1 : List Delivery), s.firstByteReceived = true →
        (deliverAll F ds1 s).firstByteReceived = true
        ∧ ttfbRecords (deliverAll F ds1 s).printed = ttfbRecords s.printed) := by
  have h1 : ttfbRecords (deliverAll F ds (Callbacks.init file)).printed
      = ((ds.find? Delivery.isNonEmptyChunk).map Delivery.since).toList := by
    rw [deliverAll_ttfbRecords]
    simp [Callbacks.init, ttfbRecords]
  refine ⟨h1, ?_, ?_, ?_, ?_⟩
  · rw [h1]
    cases hfind : ds.find? Delivery.isNonEmptyChunk with
    | none =>
      have hall : ds.any Delivery.isNonEmptyChunk = false := by
        rw [List.find?_eq_none] at hfind
        rw [List.any_eq_false]
        exact hfind
      simp [hall]
    | some d =>
      have hany : ds.any Delivery.isNonEmptyChunk = true := by
        rw [List.any_eq_true]
        exact ⟨d, List.mem_of_find?_eq_some hfind, List.find?_some hfind⟩
      simp [hany]
  · rw [deliverAll_firstByteReceived]
    simp [Callbacks.init]
  · intro s d hs
    rw [deliver_firstByteReceived, deliver_ttfbRecords, hs]
    simp
  · intro s ds1 hs
    rw [deliverAll_firstByteReceived, deliverAll_ttfbRecords, hs]
    simp

/-- C8: for every sequence of deliveries and every output file, the
`outputFile.Write` calls made are exactly the non-empty chunks in arrival
order, one call each, so their concatenation is the concatenation of all the
chunks, and a file that accepts and appends ends up holding that
concatenation after its earlier content; an empty chunk leaves the whole state
unchanged, and a cancellation makes no write and leaves the file as it
was. -/
theorem sink_receives_each_chunk_in_order {φ : Type} (F : OutputFile φ) (ds : List Delivery)
    (s : Callbacks φ) :
    (deliverAll F ds s).fileWrites = s.fileWrites ++ ds.filterMap Delivery.nonEmptyChunk
    ∧ (ds.filterMap Delivery.nonEmptyChunk).flatten = (ds.filterMap Delivery.chunk).flatten
    ∧ (∀ (s0 : Callbacks (List Byte)), (deliverAll appendingFile ds s0).outputFile
        = s0.outputFile ++ (ds.filterMap Delivery.chunk).flatten)
    ∧ (∀ (since : Int), deliver F ⟨since, Event.synthesizing []⟩ s = s)
    ∧ (∀ (since : Int) (details : CancellationDetails),
        (deliver F ⟨since, Event.synthesisCanceled details⟩ s).fileWrites = s.fileWrites
        ∧ (deliver F ⟨since, Event.synthesisCanceled details⟩ s).outputFile = s.outputFile
        ∧ (deliver F ⟨since, Event.synthesisCanceled details⟩ s).firstByteReceived
            = s.firstByteReceived) := by
  refine ⟨deliverAll_fileWrites F ds s, nonEmptyChunk_flatten ds,
    fun s0 => deliverAll_appendingFile ds s0, ?_, ?_⟩
  · intro since
    simp [deliver, Synthesizing_handler]
  · intro since details
    exact ⟨rfl, rfl, rfl⟩

/-! ### Sequences of `Write` calls -/

theorem sentText_sendCall (h : Nat) (text : GoString) :
    (sendCall h text).sentText = some text := by
  simp [sendCall, Call.sentText, C_CString]

theorem sentPieces_map_sendCall (h : Nat) (pieces : List GoString) :
    sentPieces (pieces.map (sendCall h)) = pieces := by
  induction pieces with
  | nil => rfl
  | cons p ps ih =>
    have hcons : sentPieces (sendCall h p :: ps.map (sendCall h))
        = p :: sentPieces (ps.map (sendCall h)) := by
      simp [sentPieces, List.filterMap_cons, sentText_sendCall]
    rw [List.map_cons, hcons, ih]

theorem sendCall_of_lt (h : Nat) (text : GoString) (hlt : text.length < 2 ^ 32) :
    sendCall h text
      = Call.speech_synthesis_request_send_text_piece h (C_CString text) text.length := by
  unfold sendCall C_uint32_t
  rw [Nat.mod_eq_of_lt hlt]

theorem writeAll_mockEngine (stream : Ref) (s : SpeechSynthesisInputStream)
    (r : SpeechSynthesisRequest) (pieces : List GoString) (w : World (List Call))
    (hs : deref w.streams stream = some s) (hr : deref w.requests s.request = some r) :
    writeAll mockEngine stream pieces w
      = some (none, { w with engine := w.engine ++ pieces.map (sendCall r.handle),
                             calls := w.calls ++ pieces.map (sendCall r.handle) }) := by
  induction pieces generalizing w with
  | nil => simp [writeAll]
  | cons p ps ih =>
    unfold writeAll
    rw [Write_eq mockEngine w stream p s r hs hr]
    have herr : errorOf mockEngine (mockEngine.speech_synthesis_request_send_text_piece
        r.handle (C_CString p) (C_uint32_t p.length) w.engine).1 = none := rfl
    rw [herr]
    show writeAll mockEngine stream ps (afterWrite mockEngine r.handle p w) = _
    rw [ih (afterWrite mockEngine r.handle p w) hs hr]
    simp [afterWrite, mockEngine, sendCall, List.append_assoc]

theorem writeAllThenClose_mockEngine (stream : Ref) (s : SpeechSynthesisInputStream)
    (r : SpeechSynthesisRequest) (pieces : List GoString) (w : World (List Call))
    (hs : deref w.streams stream = some s) (hr : deref w.requests s.request = some r) :
    writeAllThenClose mockEngine stream pieces w
      = some (none,
          { w with engine := w.engine ++ pieces.map (sendCall r.handle)
                              ++ [Call.speech_synthesis_request_finish r.handle],
                   calls := w.calls ++ pieces.map (sendCall r.handle)
                              ++ [Call.speech_synthesis_request_finish r.handle] }) := by
  unfold writeAllThenClose
  rw [writeAll_mockEngine stream s r pieces w hs hr]
  exact Close_eq mockEngine
    { w with engine := w.engine ++ pieces.map (sendCall r.handle),
             calls := w.calls ++ pieces.map (sendCall r.handle) } stream s r hs hr

theorem map_sendCall_of_lt (h : Nat) (pieces : List GoString)
    (hlen : ∀ p ∈ pieces, p.length < 2 ^ 32) :
    pieces.map (sendCall h)
      = pieces.map (fun p =>
          Call.speech_synthesis_request_send_text_piece h (C_CString p) p.length) := by
  apply List.map_congr_left
  intro p hp
  exact sendCall_of_lt h p (hlen p hp)

/-- C2, as the code has it: for every list of pieces each shorter than `2 ^ 32`
bytes, written in order to a stream of the accepting mock engine and followed
by one stream `Close`, every call returns nil, and the engine's log (like the
trace) grows by exactly one `send_text_piece` per piece, in the same order,
each carrying the piece's bytes in its buffer and the piece's byte length,
followed by exactly one `finish`; the texts sent are exactly the pieces. -/
theorem writes_then_close_logged_in_order (stream : Ref) (s : SpeechSynthesisInputStream)
    (r : SpeechSynthesisRequest) (pieces : List GoString) (w : World (List Call))
    (hs : deref w.streams stream = some s) (hr : deref w.requests s.request = some r)
    (hlen : ∀ p ∈ pieces, p.length < 2 ^ 32) :
    ∃ w1, writeAllThenClose mockEngine stream pieces w = some (none, w1)
      ∧ w1.engine = w.engine
          ++ pieces.map (fun p =>
              Call.speech_synthesis_request_send_text_piece r.handle (C_CString p) p.length)
          ++ [Call.speech_synthesis_request_finish r.handle]
      ∧ w1.calls = w.calls
          ++ pieces.map (fun p =>
              Call.speech_synthesis_request_send_text_piece r.handle (C_CString p) p.length)
          ++ [Call.speech_synthesis_request_finish r.handle]
      ∧ sentPieces (w1.engine.drop w.engine.length) = pieces
      ∧ finishCount (w1.engine.drop w.engine.length) = 1 := by
  refine ⟨_, writeAllThenClose_mockEngine stream s r pieces w hs hr, ?_, ?_, ?_, ?_⟩
  · show w.engine ++ pieces.map (sendCall r.handle) ++ _ = _
    rw [map_sendCall_of_lt r.handle pieces hlen]
  · show w.calls ++ pieces.map (sendCall r.handle) ++ _ = _
    rw [map_sendCall_of_lt r.handle pieces hlen]
  · show sentPieces ((w.engine ++ pieces.map (sendCall r.handle)
        ++ [Call.speech_synthesis_request_finish r.handle]).drop w.engine.length) = pieces
    rw [List.append_assoc, List.drop_left]
    unfold sentPieces
    rw [List.filterMap_append]
    have := sentPieces_map_sendCall r.handle pieces
    unfold sentPieces at this
    rw [this]
    simp [Call.sentText]
  · show finishCount ((w.engine ++ pieces.map (sendCall r.handle)
        ++ [Call.speech_synthesis_request_finish r.handle]).drop w.engine.length) = 1
    rw [List.append_assoc, List.drop_left]
    unfold finishCount
    rw [List.countP_append]
    have hzero : List.countP (fun c => match c with
        | Call.speech_synthesis_request_finish _ => true
        | _ => false) (pieces.map (sendCall r.handle)) = 0 := by
      rw [List.countP_eq_zero]
      intro c hc
      obtain ⟨p, _, rfl⟩ := List.mem_map.mp hc
      simp [sendCall]
    rw [hzero]
    rfl

theorem writes_then_close_logged_in_order_witness :
    deref (World.withStream ([] : List Call) 7).streams (some 0) = some ⟨some 0⟩
    ∧ deref (World.withStream ([] : List Call) 7).requests (some 0) = some ⟨7⟩
    ∧ (∀ p ∈ [[72, 101, 108, 108, 111, 32], [119, 111, 114, 108, 100, 46]],
        (p : GoString).length < 2 ^ 32)
    ∧ ∃ w1, writeAllThenClose mockEngine (some 0)
          [[72, 101, 108, 108, 111, 32], [119, 111, 114, 108, 100, 46]]
          (World.withStream [] 7) = some (none, w1)
        ∧ w1.engine
            = [Call.speech_synthesis_request_send_text_piece 7 [72, 101, 108, 108, 111, 32, 0] 6,
               Call.speech_synthesis_request_send_text_piece 7 [119, 111, 114, 108, 100, 46, 0] 6,
               Call.speech_synthesis_request_finish 7] := by
  have hlen : ∀ p ∈ [[72, 101, 108, 108, 111, 32], [119, 111, 114, 108, 100, 46]],
      (p : GoString).length < 2 ^ 32 := by
    intro p hp
    simp only [List.mem_cons, List.mem_singleton, List.not_mem_nil, or_false] at hp
    rcases hp with rfl | rfl <;> decide
  refine ⟨rfl, rfl, hlen, ?_⟩
  obtain ⟨w1, h1, h2, _⟩ :=
    writes_then_close_logged_in_order (some 0) ⟨some 0⟩ ⟨7⟩
      [[72, 101, 108, 108, 111, 32], [119, 111, 114, 108, 100, 46]]
      (World.withStream [] 7) rfl rfl hlen
  exact ⟨w1, h1, h2⟩

theorem long_piece_length_not_logged (p : GoString) (hp : p.length = 2 ^ 32) :
    (writeAllThenClose mockEngine (some 0) [p] (World.withStream [] 7)).map
        (fun res => (res.1, res.2.engine))
      = some (none, [Call.speech_synthesis_request_send_text_piece 7 (C_CString p) 0,
                     Call.speech_synthesis_request_finish 7])
    ∧ (writeAllThenClose mockEngine (some 0) [p] (World.withStream [] 7)).map
        (fun res => res.2.engine)
      ≠ some ([p].map (fun q =>
            Call.speech_synthesis_request_send_text_piece 7 (C_CString q) q.length)
          ++ [Call.speech_synthesis_request_finish 7]) := by
  have hrun := writeAllThenClose_mockEngine (some 0) ⟨some 0⟩ ⟨7⟩ [p]
    (World.withStream [] 7) rfl rfl
  have hcall : sendCall 7 p
      = Call.speech_synthesis_request_send_text_piece 7 (C_CString p) 0 := by
    unfold sendCall C_uint32_t
    rw [hp, Nat.mod_self]
  rw [hrun]
  constructor
  · simp [World.withStream, hcall]
  · simp only [Option.map_some', World.withStream, List.map_cons, List.map_nil, List.nil_append,
      List.singleton_append, hcall, hp]
    intro heq
    have h1 := List.head_eq_of_cons_eq (Option.some.inj heq)
    have h2 : (0 : Nat) = 2 ^ 32 := by
      injection h1
    exact absurd h2 (by decide)

/-- C2 fails as stated: for the single piece made of `2 ^ 32` bytes `'a'`,
written to a stream of the accepting mock engine and followed by `Close`, both
calls return nil, and the engine's log holds the piece's buffer with the length
`0`, not with the piece's byte length `2 ^ 32`. -/
theorem writes_then_close_truncates_length :
    (writeAllThenClose mockEngine (some 0) [List.replicate (2 ^ 32) (97 : Byte)]
        (World.withStream [] 7)).map (fun res => (res.1, res.2.engine))
      = some (none,
          [Call.speech_synthesis_request_send_text_piece 7
             (C_CString (List.replicate (2 ^ 32) (97 : Byte))) 0,
           Call.speech_synthesis_request_finish 7])
    ∧ (writeAllThenClose mockEngine (some 0) [List.replicate (2 ^ 32) (97 : Byte)]
        (World.withStream [] 7)).map (fun res => res.2.engine)
      ≠ some ([List.replicate (2 ^ 32) (97 : Byte)].map (fun q =>
            Call.speech_synthesis_request_send_text_piece 7 (C_CString q) q.length)
          ++ [Call.speech_synthesis_request_finish 7]) :=
  long_piece_length_not_logged (List.replicate (2 ^ 32) (97 : Byte))
    (List.length_replicate _ _)

/-! ### The send loop -/

theorem IndexByte_split (s : GoString) (c : Byte) (m : Nat) (h : IndexByte s c = some m) :
    s.take m ++ c :: s.drop (m + 1) = s := by
  induction s generalizing m with
  | nil => simp [IndexByte] at h
  | cons b bs ih =>
    unfold IndexByte at h
    by_cases hb : b = c
    · rw [if_pos hb] at h
      cases h
      simp [hb]
    · rw [if_neg hb] at h
      cases hi : IndexByte bs c with
      | none => simp [hi] at h
      | some k =>
        rw [hi] at h
        cases h
        simp [ih k hi]

theorem genSplitLoop_flatten (sep : Byte) (k : Nat) (s : GoString) :
    ((genSplitLoop sep k s).map (fun word => word ++ [sep])).flatten = s ++ [sep] := by
  induction k generalizing s with
  | zero => simp [genSplitLoop]
  | succ k ih =>
    unfold genSplitLoop
    cases hi : IndexByte s sep with
    | none => simp
    | some m =>
      simp only [List.map_cons, List.flatten_cons]
      rw [ih]
      have := IndexByte_split s sep m hi
      calc (s.take m ++ [sep]) ++ (s.drop (m + 1) ++ [sep])
          = (s.take m ++ sep :: s.drop (m + 1)) ++ [sep] := by simp
        _ = s ++ [sep] := by rw [this]

theorem chunksOf_flatten (text : GoString) : (chunksOf text).flatten = text ++ [space] := by
  unfold chunksOf Split
  exact genSplitLoop_flatten space _ text

theorem sendLoop_eq_writeAll {σ : Type} (E : Engine σ) (stream : Ref) (words : List GoString)
    (p : Sample σ) :
    (sendLoop E stream words p).map (fun res => (res.1, res.2.world))
      = (writeAll E stream (words.map (fun word => word ++ [space])) p.world).map
          (fun res => (res.1.isNone, res.2)) := by
  induction words generalizing p with
  | nil => rfl
  | cons word rest ih =>
    unfold sendLoop
    rw [List.map_cons]
    unfold writeAll
    cases hw : SpeechSynthesisInputStream.Write E stream (word ++ [space]) p.world with
    | none => simp [hw]
    | some res =>
      obtain ⟨err, w1⟩ := res
      cases err with
      | some e => simp [hw]
      | none =>
        simp only [hw]
        exact ih _

theorem streamText_eq_writeAllThenClose {σ : Type} (E : Engine σ) (req : Ref)
    (text : GoString) (p : Sample σ) :
    (streamText E req text p).map (fun res => (res.1, res.2.world))
      = (writeAllThenClose E (SpeechSynthesisRequest.InputStream req p.world).1
          (chunksOf text) (SpeechSynthesisRequest.InputStream req p.world).2).map
          (fun res => (res.1.isNone, res.2)) := by
  have hloop := sendLoop_eq_writeAll E (SpeechSynthesisRequest.InputStream req p.world).1
    (Split text space) { p with world := (SpeechSynthesisRequest.InputStream req p.world).2 }
  unfold streamText writeAllThenClose chunksOf
  simp only at hloop ⊢
  cases hs : sendLoop E (SpeechSynthesisRequest.InputStream req p.world).1 (Split text space)
      { p with world := (SpeechSynthesisRequest.InputStream req p.world).2 } with
  | none =>
    rw [hs] at hloop
    cases hwa : writeAll E (SpeechSynthesisRequest.InputStream req p.world).1
        ((Split text space).map (fun word => word ++ [space]))
        (SpeechSynthesisRequest.InputStream req p.world).2 with
    | none => simp
    | some res => simp [hwa] at hloop
  | some res =>
    obtain ⟨ok, p1⟩ := res
    rw [hs] at hloop
    cases hwa : writeAll E (SpeechSynthesisRequest.InputStream req p.world).1
        ((Split text space).map (fun word => word ++ [space]))
        (SpeechSynthesisRequest.InputStream req p.world).2 with
    | none => simp [hwa] at hloop
    | some res2 =>
      obtain ⟨err, w1⟩ := res2
      rw [hwa] at hloop
      simp only [Option.map_some', Option.some.injEq, Prod.mk.injEq] at hloop
      obtain ⟨hok, hworld⟩ := hloop
      subst hworld
      cases err with
      | some e =>
        simp only [Option.isNone_some] at hok
        subst hok
        simp
      | none =>
        simp only [Option.isNone_none] at hok
        subst hok
        simp only
        cases hc : SpeechSynthesisInputStream.Close E
            (SpeechSynthesisRequest.InputStream req p.world).1 p1.world with
        | none => simp
        | some res3 =>
          obtain ⟨err3, w3⟩ := res3
          cases err3 <;> simp

theorem sendLoop_calls_exact {σ : Type} (E : Engine σ) (stream : Ref)
    (s : SpeechSynthesisInputStream) (r : SpeechSynthesisRequest) (words : List GoString)
    (p p1 : Sample σ)
    (hs : deref p.world.streams stream = some s)
    (hr : deref p.world.requests s.request = some r)
    (h : sendLoop E stream words p = some (true, p1)) :
    p1.world.calls
      = p.world.calls ++ words.map (fun word => sendCall r.handle (word ++ [space])) := by
  induction words generalizing p with
  | nil =>
    simp only [sendLoop, Option.some.injEq, Prod.mk.injEq, true_and] at h
    subst h
    simp
  | cons word rest ih =>
    unfold sendLoop at h
    have hw := Write_eq E p.world stream (word ++ [space]) s r hs hr
    dsimp only at h
    rw [hw] at h
    cases herr : errorOf E (E.speech_synthesis_request_send_text_piece r.handle
        (C_CString (word ++ [space])) (C_uint32_t (word ++ [space]).length) p.world.engine).1 with
    | some e =>
      rw [herr] at h
      simp at h
    | none =>
      rw [herr] at h
      have hrest := ih { world := afterWrite E r.handle (word ++ [space]) p.world,
                         printed := p.printed ++ [LogLine.sending (word ++ [space])] } hs hr h
      rw [hrest]
      simp [afterWrite, sendCall]

theorem receivedPieces_map_full (h : Nat) (pieces : List GoString) :
    receivedPieces (pieces.map (fun c =>
        Call.speech_synthesis_request_send_text_piece h (C_CString c) c.length)) = pieces := by
  induction pieces with
  | nil => rfl
  | cons c cs ih =>
    have hcons : receivedPieces
        (Call.speech_synthesis_request_send_text_piece h (C_CString c) c.length ::
          cs.map (fun c => Call.speech_synthesis_request_send_text_piece h (C_CString c) c.length))
        = c :: receivedPieces (cs.map (fun c =>
            Call.speech_synthesis_request_send_text_piece h (C_CString c) c.length)) := by
      simp [receivedPieces, List.filterMap_cons, Call.receivedText, C_CString]
    rw [List.map_cons, hcons, ih]

theorem Split_of_no_separator (s : GoString) (sep : Byte) (hno : sep ∉ s) :
    Split s sep = [s] := by
  unfold Split Count
  rw [List.count_eq_zero.mpr hno]
  have hk : min (0 + 1) (s.length + 1) - 1 = 0 := by omega
  simp only [hk]
  rfl

/-- C10, as the code has it: for every text, the pieces of the send loop (the
words of `strings.Split(text, " ")`, each followed by one space) concatenate in
order to the text followed by one space; and when every piece is shorter than
`2 ^ 32` bytes and the loop runs to its end, that is, every `Write` returned
nil, the calls it added to the trace are exactly one `send_text_piece` per
piece, in order, each with the piece in its buffer and the piece's byte length,
so that the texts handed to the engine are those pieces and concatenate to the
text followed by one space. -/
theorem sendLoop_hands_over_text_and_space (text : GoString) :
    (chunksOf text).flatten = text ++ [space]
    ∧ ∀ {σ : Type} (E : Engine σ) (stream : Ref) (s : SpeechSynthesisInputStream)
        (r : SpeechSynthesisRequest) (p p1 : Sample σ),
        deref p.world.streams stream = some s →
        deref p.world.requests s.request = some r →
        (∀ c ∈ chunksOf text, c.length < 2 ^ 32) →
        sendLoop E stream (Split text space) p = some (true, p1) →
        p1.world.calls = p.world.calls ++ (chunksOf text).map (fun c =>
            Call.speech_synthesis_request_send_text_piece r.handle (C_CString c) c.length)
        ∧ receivedPieces (p1.world.calls.drop p.world.calls.length) = chunksOf text
        ∧ (receivedPieces (p1.world.calls.drop p.world.calls.length)).flatten
            = text ++ [space] := by
  refine ⟨chunksOf_flatten text, ?_⟩
  intro σ E stream s r p p1 hs hr hlen h
  have hcalls : p1.world.calls = p.world.calls ++ (chunksOf text).map (fun c =>
      Call.speech_synthesis_request_send_text_piece r.handle (C_CString c) c.length) := by
    rw [sendLoop_calls_exact E stream s r (Split text space) p p1 hs hr h,
      ← map_sendCall_of_lt r.handle (chunksOf text) hlen]
    unfold chunksOf
    rw [List.map_map]
    rfl
  have hrecv : receivedPieces (p1.world.calls.drop p.world.calls.length) = chunksOf text := by
    rw [hcalls, List.drop_left]
    exact receivedPieces_map_full r.handle (chunksOf text)
  exact ⟨hcalls, hrecv, by rw [hrecv]; exact chunksOf_flatten text⟩

theorem sendLoop_hands_over_text_and_space_witness :
    deref (World.withStream ([] : List Call) 7).streams (some 0) = some ⟨some 0⟩
    ∧ deref (World.withStream ([] : List Call) 7).requests (some 0) = some ⟨7⟩
    ∧ (∀ c ∈ chunksOf [97, 32, 32, 98], c.length < 2 ^ 32)
    ∧ sendLoop mockEngine (some 0) (Split [97, 32, 32, 98] space)
          ⟨World.withStream [] 7, []⟩
        = some (true,
            ⟨{ engine := [sendCall 7 [97, 32], sendCall 7 [32], sendCall 7 [98, 32]],
               calls := [sendCall 7 [97, 32], sendCall 7 [32], sendCall 7 [98, 32]],
               requests := [⟨7⟩], streams := [⟨some 0⟩] },
             [LogLine.sending [97, 32], LogLine.sending [32], LogLine.sending [98, 32]]⟩)
    ∧ [sendCall 7 [97, 32], sendCall 7 [32], sendCall 7 [98, 32]]
        = [] ++ (chunksOf [97, 32, 32, 98]).map (fun c =>
            Call.speech_synthesis_request_send_text_piece 7 (C_CString c) c.length)
    ∧ (receivedPieces [sendCall 7 [97, 32], sendCall 7 [32], sendCall 7 [98, 32]]).flatten
        = [97, 32, 32, 98, 32] := by
  have hlen : ∀ c ∈ chunksOf [97, 32, 32, 98], c.length < 2 ^ 32 := by decide
  have hrun : sendLoop mockEngine (some 0) (Split [97, 32, 32, 98] space)
        ⟨World.withStream [] 7, []⟩
      = some (true,
          ⟨{ engine := [sendCall 7 [97, 32], sendCall 7 [32], sendCall 7 [98, 32]],
             calls := [sendCall 7 [97, 32], sendCall 7 [32], sendCall 7 [98, 32]],
             requests := [⟨7⟩], streams := [⟨some 0⟩] },
           [LogLine.sending [97, 32], LogLine.sending [32], LogLine.sending [98, 32]]⟩) := by
    rfl
  have h := (sendLoop_hands_over_text_and_space [97, 32, 32, 98]).2 mockEngine (some 0)
    ⟨some 0⟩ ⟨7⟩ ⟨World.withStream [] 7, []⟩
    ⟨{ engine := [sendCall 7 [97, 32], sendCall 7 [32], sendCall 7 [98, 32]],
       calls := [sendCall 7 [97, 32], sendCall 7 [32], sendCall 7 [98, 32]],
       requests := [⟨7⟩], streams := [⟨some 0⟩] },
     [LogLine.sending [97, 32], LogLine.sending [32], LogLine.sending [98, 32]]⟩
    rfl rfl hlen hrun
  exact ⟨rfl, rfl, hlen, hrun, h.1, h.2.2⟩

theorem long_word_length_not_sent (word : GoString) (hno : space ∉ word)
    (hlen : word.length = 2 ^ 32 - 1) :
    (sendLoop mockEngine (some 0) (Split word space) ⟨World.withStream [] 7, []⟩).map
        (fun res => (res.1, res.2.world.engine))
      = some (true, [Call.speech_synthesis_request_send_text_piece 7
                       (C_CString (word ++ [space])) 0])
    ∧ (sendLoop mockEngine (some 0) (Split word space) ⟨World.withStream [] 7, []⟩).map
        (fun res => (receivedPieces res.2.world.engine).flatten)
      = some []
    ∧ (sendLoop mockEngine (some 0) (Split word space) ⟨World.withStream [] 7, []⟩).map
        (fun res => (receivedPieces res.2.world.engine).flatten)
      ≠ some (word ++ [space]) := by
  have hcall : sendCall 7 (word ++ [space])
      = Call.speech_synthesis_request_send_text_piece 7 (C_CString (word ++ [space])) 0 := by
    have hl : (word ++ [space]).length = 2 ^ 32 := by
      rw [List.length_append, hlen]
      rfl
    unfold sendCall C_uint32_t
    rw [hl, Nat.mod_self]
  have hmap := sendLoop_eq_writeAll mockEngine (some 0) (Split word space)
    ⟨World.withStream [] 7, []⟩
  rw [Split_of_no_separator word space hno] at hmap ⊢
  rw [List.map_cons, List.map_nil,
    writeAll_mockEngine (some 0) ⟨some 0⟩ ⟨7⟩ [word ++ [space]] (World.withStream [] 7) rfl rfl]
    at hmap
  cases hres : sendLoop mockEngine (some 0) [word] ⟨World.withStream [] 7, []⟩ with
  | none => simp [hres] at hmap
  | some res =>
    rw [hres] at hmap
    simp only [Option.map_some', Option.some.injEq, Prod.mk.injEq, Option.isNone_none] at hmap
    obtain ⟨hok, hworld⟩ := hmap
    have hengine : res.2.world.engine
        = [Call.speech_synthesis_request_send_text_piece 7 (C_CString (word ++ [space])) 0] := by
      rw [hworld]
      simp [World.withStream, hcall]
    have hflat : (receivedPieces res.2.world.engine).flatten = [] := by
      rw [hengine]
      simp [receivedPieces, Call.receivedText]
    refine ⟨?_, ?_, ?_⟩
    · simp only [Option.map_some', hok, hengine]
    · simp only [Option.map_some', hflat]
    · simp only [Option.map_some', hflat]
      intro heq
      have h2 := Option.some.inj heq
      exact absurd h2.symm (List.append_ne_nil_of_right_ne_nil word (List.cons_ne_nil _ _))

/-- C10 fails as stated: for the text made of `2 ^ 32 - 1` bytes `'a'` (one
word, no space), the send loop against the accepting mock engine runs to its
end with its single `Write` returning nil, and the engine's log holds one
`send_text_piece` whose length argument is `0`: the text handed to the engine
is empty, not the text followed by one space. -/
theorem sendLoop_truncates_long_word :
    (sendLoop mockEngine (some 0) (Split (List.replicate (2 ^ 32 - 1) (97 : Byte)) space)
        ⟨World.withStream [] 7, []⟩).map (fun res => (res.1, res.2.world.engine))
      = some (true, [Call.speech_synthesis_request_send_text_piece 7
                       (C_CString (List.replicate (2 ^ 32 - 1) (97 : Byte) ++ [space])) 0])
    ∧ (sendLoop mockEngine (some 0) (Split (List.replicate (2 ^ 32 - 1) (97 : Byte)) space)
        ⟨World.withStream [] 7, []⟩).map
        (fun res => (receivedPieces res.2.world.engine).flatten)
      = some []
    ∧ (sendLoop mockEngine (some 0) (Split (List.replicate (2 ^ 32 - 1) (97 : Byte)) space)
        ⟨World.withStream [] 7, []⟩).map
        (fun res => (receivedPieces res.2.world.engine).flatten)
      ≠ some (List.replicate (2 ^ 32 - 1) (97 : Byte) ++ [space]) :=
  long_word_length_not_sent (List.replicate (2 ^ 32 - 1) (97 : Byte))
    (fun hmem => absurd (List.eq_of_mem_replicate hmem) (by decide))
    (List.length_replicate _ _)

end Speech
